import Mathlib

/-!
Verification development for the pySDC repository fragment: the matrix_heat1d
and sharpclaw example problem classes, the deprecated Equidistant collocation
wrapper, and the Newton-PFASST playground script, together with spec-modelled
components (generic Collocation constructor, controller run contract) whose
code is not part of the fragment.

Meshes are embedded as functions Fin n → ℚ (exact arithmetic stands in for
numpy float vectors); sparse matrices as Mathlib matrices over ℚ; functions of
real time that involve transcendental operations (u_exact, force_term) are
embedded over ℝ.
-/

set_option maxHeartbeats 1000000

namespace PySDC

/-- The tridiagonal [1, -2, 1] finite-difference stencil matrix, as assembled by
sp.diags(stencil, [-1, 0, 1], shape=(N, N)) in heat1d.__get_A. -/
def fdStencil (N : ℕ) : Matrix (Fin N) (Fin N) ℚ :=
  Matrix.of fun i j =>
    if i = j then (-2 : ℚ)
    else if (i : ℕ) + 1 = (j : ℕ) ∨ (j : ℕ) + 1 = (i : ℕ) then 1 else 0

/-- heat1d.__get_A: the stencil matrix scaled by nu / dx^2. -/
def heat1d_getA (N : ℕ) (nu dx : ℚ) : Matrix (Fin N) (Fin N) ℚ :=
  (nu / dx ^ 2) • fdStencil N

/-- heat1d.__init__ computes dx = 1 / (nvars + 1). -/
def heat1d_dx (nvars : ℕ) : ℚ := 1 / (nvars + 1)

/-- heat1d attribute A = __get_A(nvars, nu, dx). -/
def heat1d_A (nvars : ℕ) (nu : ℚ) : Matrix (Fin nvars) (Fin nvars) ℚ :=
  heat1d_getA nvars nu (heat1d_dx nvars)

/-- The periodic stencil of heat1d_periodic.__get_A:
sp.diags([1,-2,1], [-1,0,1]) plus sp.diags([[1],[1]], [N-1, 1-N]), which places
an extra 1 at positions (0, N-1) and (N-1, 0). -/
def periodicStencil (N : ℕ) : Matrix (Fin N) (Fin N) ℚ :=
  Matrix.of fun i j =>
    (if i = j then (-2 : ℚ)
     else if (i : ℕ) + 1 = (j : ℕ) ∨ (j : ℕ) + 1 = (i : ℕ) then 1 else 0) +
    (if ((i : ℕ) = 0 ∧ (j : ℕ) = N - 1) ∨ ((i : ℕ) = N - 1 ∧ (j : ℕ) = 0)
     then 1 else 0)

/-- heat1d_periodic.__get_A: the periodic stencil scaled by nu / dx^2. -/
def heat1d_periodic_getA (N : ℕ) (nu dx : ℚ) : Matrix (Fin N) (Fin N) ℚ :=
  (nu / dx ^ 2) • periodicStencil N

/-- heat1d_periodic.__init__ computes dx = 1.0 / nvars. -/
def heat1d_periodic_dx (nvars : ℕ) : ℚ := 1 / nvars

/-- heat1d_periodic attribute A. -/
def heat1d_periodic_A (nvars : ℕ) (nu : ℚ) : Matrix (Fin nvars) (Fin nvars) ℚ :=
  heat1d_periodic_getA nvars nu (heat1d_periodic_dx nvars)

/-- heat1d.solve_system: me.values = inv(I - factor*A).dot(rhs.values).
The returned mesh is the inverse matrix (det⁻¹ • adjugate, the unique inverse
when the determinant is nonzero) applied to rhs; LA.inv raises on a singular
matrix, modelled by returning none.  The initial guess u0 is bound but, as in
the source, never used. -/
def heat1d_solve_system (nvars : ℕ) (nu : ℚ) (rhs : Fin nvars → ℚ)
    (factor : ℚ) (u0 : Fin nvars → ℚ) : Option (Fin nvars → ℚ) :=
  let M : Matrix (Fin nvars) (Fin nvars) ℚ := 1 - factor • heat1d_A nvars nu
  if M.det = 0 then none
  else some ((M.det⁻¹ • M.adjugate).mulVec rhs)

/-- heat1d_periodic.solve_system: same body as heat1d.solve_system with the
periodic discretization matrix. -/
def heat1d_periodic_solve_system (nvars : ℕ) (nu : ℚ) (rhs : Fin nvars → ℚ)
    (factor : ℚ) (u0 : Fin nvars → ℚ) : Option (Fin nvars → ℚ) :=
  let M : Matrix (Fin nvars) (Fin nvars) ℚ := 1 - factor • heat1d_periodic_A nvars nu
  if M.det = 0 then none
  else some ((M.det⁻¹ • M.adjugate).mulVec rhs)

/-- sharpclaw.solve_system: me = 0.0 * mesh(self.nvars); return me.
It returns the zero mesh regardless of rhs, factor and u0. -/
def sharpclaw_solve_system (nvars : ℕ) (rhs : Fin nvars → ℚ)
    (factor : ℚ) (u0 : Fin nvars → ℚ) : Fin nvars → ℚ :=
  fun _ => 0

/-- The rhs_imex_mesh datatype: a right-hand side split into implicit and
explicit parts. -/
structure RhsImexMesh (n : ℕ) where
  impl : Fin n → ℚ
  expl : Fin n → ℚ

/-- heat1d.__eval_fimpl: fimpl.values = A.dot(u.values). -/
def heat1d_eval_fimpl (nvars : ℕ) (nu : ℚ) (u : Fin nvars → ℚ) (t : ℚ) :
    Fin nvars → ℚ :=
  (heat1d_A nvars nu).mulVec u

/-- heat1d.__eval_fexpl: fexpl.values = np.zeros(nvars). -/
def heat1d_eval_fexpl (nvars : ℕ) (u : Fin nvars → ℚ) (t : ℚ) :
    Fin nvars → ℚ :=
  fun _ => 0

/-- heat1d.eval_f: f.impl = __eval_fimpl(u,t); f.expl = __eval_fexpl(u,t). -/
def heat1d_eval_f (nvars : ℕ) (nu : ℚ) (u : Fin nvars → ℚ) (t : ℚ) :
    RhsImexMesh nvars :=
  { impl := heat1d_eval_fimpl nvars nu u t
    expl := heat1d_eval_fexpl nvars u t }

/-- The attribute state a heat1d instance carries after __init__ (the fields
the example code reads back: nvars, nu, dx; the matrix A is determined by
them via heat1d_getA). -/
structure Heat1dState where
  nvars : ℕ
  nu : ℚ
  dx : ℚ
deriving DecidableEq

/-- The attribute state of a heat1d_periodic instance after __init__. -/
structure Heat1dPeriodicState where
  nvars : ℕ
  nu : ℚ
  sparse_format : String
  dx : ℚ
deriving DecidableEq

/-- The custom-parameter dictionary cparams, restricted to the keys the two
constructors look up. A missing key is none. -/
structure Cparams where
  nvars : Option ℕ
  nu : Option ℚ
  sparse_format : Option String
deriving DecidableEq

/-- Python-level failures distinguished by this development. -/
inductive PyErr where
  | assertionError
  | configurationError
  | solveFailure
deriving DecidableEq

/-- heat1d.__init__: asserts that nvars and nu are present in cparams (an
assert statement raises AssertionError), then sets the attributes and
dx = 1/(nvars+1). -/
def heat1d_init (c : Cparams) : Except PyErr Heat1dState :=
  match c.nvars with
  | none => .error .assertionError
  | some nv =>
    match c.nu with
    | none => .error .assertionError
    | some nu => .ok ⟨nv, nu, 1 / ((nv : ℚ) + 1)⟩

/-- heat1d_periodic.__init__: asserts nvars and nu are present, reads the
optional sparse_format key (default "array"), sets dx = 1/nvars. -/
def heat1d_periodic_init (c : Cparams) : Except PyErr Heat1dPeriodicState :=
  match c.nvars with
  | none => .error .assertionError
  | some nv =>
    match c.nu with
    | none => .error .assertionError
    | some nu => .ok ⟨nv, nu, c.sparse_format.getD "array", 1 / (nv : ℚ)⟩

/-- heat1d.eval_f as a call on the instance state: the triple returned is the
post-call instance state, the post-call argument mesh, and the result.  The
source body only constructs fresh meshes (rhs_imex_mesh, A.dot allocates a new
array) and assigns no attribute of self and no entry of u, so the post-call
state and argument equal the inputs. -/
def heat1d_eval_f_call (P : Heat1dState) (u : Fin P.nvars → ℚ) (t : ℚ) :
    Heat1dState × (Fin P.nvars → ℚ) × RhsImexMesh P.nvars :=
  (P, u,
    { impl := (heat1d_getA P.nvars P.nu P.dx).mulVec u
      expl := fun _ => 0 })

/-- heat1d xvalues attribute: x_i = (i+1)*dx with dx = 1/(nvars+1), over ℝ. -/
noncomputable def heat1d_xvalues (nvars : ℕ) : Fin nvars → ℝ :=
  fun i => ((i : ℕ) + 1 : ℝ) * (1 / ((nvars : ℝ) + 1))

/-- heat1d.u_exact: me.values = sin(pi * xvalues) * exp(-pi^2 * nu * t). -/
noncomputable def heat1d_u_exact (nvars : ℕ) (nu t : ℝ) : Fin nvars → ℝ :=
  fun i => Real.sin (Real.pi * heat1d_xvalues nvars i) *
    Real.exp (-Real.pi ^ 2 * nu * t)

/-- heat1d.force_term on a scalar time t (the else branch of the source):
-sin(pi*xvalues) * (sin(t) - nu*pi^2*cos(t)). -/
noncomputable def heat1d_force_term_scalar (nvars : ℕ) (nu t : ℝ) :
    Fin nvars → ℝ :=
  fun i => -Real.sin (Real.pi * heat1d_xvalues nvars i) *
    (Real.sin t - nu * Real.pi ^ 2 * Real.cos t)

/-- heat1d.force_term on an ndarray argument t of length n (the
type(t) is np.ndarray branch): np.zeros(xvalues.shape[0] * t.shape[0]). -/
def heat1d_force_term_array (nvars : ℕ) (n : ℕ) (ts : Fin n → ℝ) :
    Fin (nvars * n) → ℝ :=
  fun _ => 0

/-- Stacking the scalar force_term evaluations at each entry of a time array,
the value the commented-out np.hstack(map(...)) line would produce: block j of
length nvars holds the scalar evaluation at ts j.  Index k corresponds to
block k / nvars, offset k % nvars. -/
noncomputable def heat1d_force_term_stacked (nvars : ℕ) (nu : ℝ) (n : ℕ)
    (ts : Fin n → ℝ) : Fin (nvars * n) → ℝ :=
  fun k =>
    if h : nvars = 0 then 0
    else
      heat1d_force_term_scalar nvars nu
        (ts ⟨(k : ℕ) / nvars,
          (Nat.div_lt_iff_lt_mul (Nat.pos_of_ne_zero h)).mpr
            (lt_of_lt_of_le k.isLt (Nat.mul_comm nvars n).le)⟩)
        ⟨(k : ℕ) % nvars, Nat.mod_lt _ (Nat.pos_of_ne_zero h)⟩

/-- Maximum norm of a finite real vector: the fold of max over the absolute
values, with 0 for the empty vector. -/
noncomputable def supNorm {n : ℕ} (v : Fin n → ℝ) : ℝ :=
  (List.ofFn fun i => |v i|).foldr max 0

/-- Node-type tags of the collocation generator (spec §4.1: equidistant,
Gauss-Radau-right, Gauss-Lobatto). -/
inductive NodeType where
  | EQUID
  | GAUSS_RADAU_RIGHT
  | GAUSS_LOBATTO
deriving DecidableEq

/-- Quadrature-type tags of the collocation generator. -/
inductive QuadType where
  | LOBATTO
  | RADAU_RIGHT
  | GAUSS
deriving DecidableEq

/-- Modelled from the spec: the node-type/quadrature-type combinations the
Collocation generator supports (§4.1 requires at least equidistant nodes with
Lobatto-style quadrature and Gauss-Radau-right nodes; §3 also lists
Gauss-Lobatto); every other combination is unsupported. -/
def supportedCombo : NodeType → QuadType → Bool
  | .EQUID, .LOBATTO => true
  | .GAUSS_RADAU_RIGHT, .RADAU_RIGHT => true
  | .GAUSS_LOBATTO, .LOBATTO => true
  | _, _ => false

/-- A validated collocation configuration: node count, interval, tags. -/
structure Collocation where
  num_nodes : ℕ
  tleft : ℚ
  tright : ℚ
  node_type : NodeType
  quad_type : QuadType
deriving DecidableEq

/-- Modelled from the spec: the constructor of the generic Collocation class
(pySDC.implementations.collocations.Collocation, whose code is not part of
this source fragment).  It fails with ConfigurationError if M < 1, if
a >= b, or if the node/quadrature combination is unsupported (§4.1), and
otherwise constructs the configuration object. -/
def Collocation.make (M : ℕ) (a b : ℚ) (nt : NodeType) (qt : QuadType) :
    Except PyErr Collocation :=
  if M < 1 then .error .configurationError
  else if b ≤ a then .error .configurationError
  else if supportedCombo nt qt = false then .error .configurationError
  else .ok ⟨M, a, b, nt, qt⟩

/-- Equidistant.__init__ (source file
implementations/collocation_classes/equidistant.py): delegates to the generic
Collocation class with node_type EQUID and quad_type LOBATTO. -/
def Equidistant.make (M : ℕ) (a b : ℚ) : Except PyErr Collocation :=
  Collocation.make M a b .EQUID .LOBATTO

/-- Modelled from the spec: the M×M integration matrix Q of the collocation
generator (code not part of this source fragment).  Per §3, row m of Q
integrates from the interval left edge a to node t m; collocation quadrature
realizes this by integrating the Lagrange cardinal polynomial of each node j,
so that (Q·f)_m = sum_j Q m j · f(t j) approximates the integral of f. -/
noncomputable def collQ (M : ℕ) (a : ℝ) (t : Fin M → ℝ) :
    Matrix (Fin M) (Fin M) ℝ :=
  Matrix.of fun m j =>
    ∫ x in a..(t m), (Lagrange.basis Finset.univ t j).eval x

/-- A stats record (spec §3): an append-only log entry
(step_id, time, level_id, iteration, metric_name, value). -/
structure StatsEntry where
  step_id : ℕ
  time : ℚ
  level_id : ℕ
  iter : ℕ
  name : String
  value : ℚ
deriving DecidableEq

/-- Modelled from the spec: the sequence of time-slices a controller run
processes.  Slice s advances the value from its start time t by the abstract
per-slice computation (predictor, sweeps, communication of §4.4-§4.5) and
appends one stats record for the slice. -/
def controllerSlices {V : Type} (advance : V → ℚ → V) (dt : ℚ) :
    ℕ → ℕ → V → ℚ → V × List StatsEntry
  | 0, _, u, _ => (u, [])
  | k + 1, s, u, t =>
    let r := controllerSlices advance dt k (s + 1) (advance u t) (t + dt)
    (r.1, ⟨s, t, 0, 1, "niter", 0⟩ :: r.2)

/-- Modelled from the spec: the controller run contract (§6):
run(u0, t0, Tend) returns the pair (final_value, stats_log) and fails with
ConfigurationError when the interval Tend - t0 is not evenly divisible into
the configured number num_procs of time-slices of length dt. -/
def controller_run {V : Type} (num_procs : ℕ) (dt : ℚ) (advance : V → ℚ → V)
    (u0 : V) (t0 Tend : ℚ) : Except PyErr (V × List StatsEntry) :=
  if Tend - t0 = (num_procs : ℚ) * dt then
    .ok (controllerSlices advance dt num_procs 0 u0 t0)
  else .error .configurationError

/-- The counters the Newton-coupled controller exposes after a run
(read as controller.nouteriter and controller.ninnersolve by
run_newton_pfasst_matrixfree in the playground script). -/
structure NewtonCounters where
  nouteriter : ℕ
  ninnersolve : ℕ
deriving DecidableEq

/-- Modelled from the spec: the Newton-coupled controller mode (§4.5 mode (b),
code not part of this source fragment): the same run contract, and after the
run the controller exposes the outer Newton iteration count and the inner
linear-solve counter; per §9 the exact charging of inner solves is a
configuration choice, modelled as inner_per_outer solves per outer iteration
per time-slice. -/
def newton_controller_run {V : Type} (num_procs : ℕ) (dt : ℚ)
    (advance : V → ℚ → V) (outer_iters inner_per_outer : ℕ)
    (u0 : V) (t0 Tend : ℚ) :
    Except PyErr ((V × List StatsEntry) × NewtonCounters) :=
  if Tend - t0 = (num_procs : ℚ) * dt then
    .ok (controllerSlices advance dt num_procs 0 u0 t0,
      ⟨outer_iters, outer_iters * inner_per_outer * num_procs⟩)
  else .error .configurationError

section Helpers

/-- Summing a function that is nonzero only at the index with value k picks
out that entry when k is in range. -/
lemma sum_ite_eq_dite {n k : ℕ} (f : Fin n → ℚ) :
    (∑ j : Fin n, if (j : ℕ) = k then f j else 0) =
    if h : k < n then f ⟨k, h⟩ else 0 := by
  split
  · next h =>
    rw [Finset.sum_eq_single (⟨k, h⟩ : Fin n)]
    · simp
    · intro b _ hb
      rw [if_neg]
      intro hc
      exact hb (Fin.ext hc)
    · intro hmem
      exact absurd (Finset.mem_univ _) hmem
  · next h =>
    apply Finset.sum_eq_zero
    intro j _
    rw [if_neg]
    intro hc
    exact h (hc ▸ j.isLt)

/-- Every element of a list of reals is bounded by the max-fold with seed 0. -/
lemma le_foldr_max (l : List ℝ) (x : ℝ) (hx : x ∈ l) : x ≤ l.foldr max 0 := by
  induction l with
  | nil => cases hx
  | cons a l ih =>
    rcases List.mem_cons.mp hx with rfl | h
    · exact le_max_left _ _
    · exact le_trans (ih h) (le_max_right _ _)

/-- The max-fold with seed 0 of a list of reals all below a positive bound is
below the bound. -/
lemma foldr_max_lt (l : List ℝ) (B : ℝ) (hB : 0 < B)
    (h : ∀ x ∈ l, x < B) : l.foldr max 0 < B := by
  induction l with
  | nil => simpa using hB
  | cons a l ih =>
    simp only [List.foldr_cons]
    exact max_lt (h a (List.mem_cons_self _ _))
      (ih fun x hx => h x (List.mem_cons_of_mem _ hx))

end Helpers

/-- C1: sharpclaw.solve_system violates the solve contract: on rhs = (1), with
factor 1 and nvars 1, it returns the zero mesh, and for every candidate
operator matrix Op the residual rhs - (I - factor*Op)·u of the returned u is 1,
not 0, so (I - factor·Operator)·u = rhs fails and no SolveFailure is raised. -/
theorem sharpclaw_solve_system_zero_defect :
    sharpclaw_solve_system 1 (fun _ => 1) 1 (fun _ => 0) = (fun _ => 0) ∧
    ∀ Op : Matrix (Fin 1) (Fin 1) ℚ,
      (fun _ => (1 : ℚ)) 0 -
        ((1 - (1 : ℚ) • Op).mulVec
          (sharpclaw_solve_system 1 (fun _ => 1) 1 (fun _ => 0))) 0 = 1 := by
  refine ⟨rfl, fun Op => ?_⟩
  have h : sharpclaw_solve_system 1 (fun _ => 1) 1 (fun _ => 0) =
      (0 : Fin 1 → ℚ) := rfl
  rw [h, Matrix.mulVec_zero]
  simp

/-- C5: heat1d.eval_f is pure: the call leaves the instance state and the
argument mesh unchanged, and two calls with equal arguments return equal
results. -/
theorem heat1d_eval_f_pure (P : Heat1dState) (u : Fin P.nvars → ℚ) (t : ℚ) :
    (heat1d_eval_f_call P u t).1 = P ∧
    (heat1d_eval_f_call P u t).2.1 = u ∧
    ∀ (u' : Fin P.nvars → ℚ) (t' : ℚ), u' = u → t' = t →
      heat1d_eval_f_call P u' t' = heat1d_eval_f_call P u t := by
  refine ⟨rfl, rfl, ?_⟩
  rintro u' t' rfl rfl
  rfl

/-- Witness for C5 at a concrete instance and state. -/
theorem heat1d_eval_f_pure_witness :
    ((fun _ : Fin 1 => (0 : ℚ)) = (fun _ : Fin 1 => (0 : ℚ))) ∧ ((0 : ℚ) = 0) ∧
    heat1d_eval_f_call ⟨1, 1, 1/2⟩ (fun _ => 0) 0 =
      heat1d_eval_f_call ⟨1, 1, 1/2⟩ (fun _ => 0) 0 :=
  ⟨rfl, rfl,
    (heat1d_eval_f_pure ⟨1, 1, 1/2⟩ (fun _ => 0) 0).2.2 _ _ rfl rfl⟩

/-- C7 counterexample: constructing heat1d from a mapping with nu but no nvars
fails with AssertionError, not with ConfigurationError as the claim states. -/
theorem heat1d_init_missing_nvars_asserts :
    heat1d_init ⟨none, some 1, none⟩ = Except.error PyErr.assertionError ∧
    (heat1d_init ⟨none, some 1, none⟩ =
      Except.error PyErr.configurationError) = False := by
  refine ⟨rfl, eq_false ?_⟩
  intro h
  exact PyErr.noConfusion (Except.error.inj h)

/-- C7 amended: constructing heat1d or heat1d_periodic from a parameter
mapping missing nvars or nu fails eagerly at construction time with an
assertion failure (AssertionError); no partially-configured instance is
produced (the constructor returns an error, not a state). -/
theorem init_missing_field_fails_eagerly (c : Cparams)
    (h : c.nvars = none ∨ c.nu = none) :
    heat1d_init c = Except.error PyErr.assertionError ∧
    heat1d_periodic_init c = Except.error PyErr.assertionError := by
  obtain ⟨nv, hnu, sf⟩ := c
  rcases h with h | h
  · simp only at h
    subst h
    exact ⟨rfl, rfl⟩
  · simp only at h
    subst h
    cases nv <;> exact ⟨rfl, rfl⟩

/-- Witness for C7 amended at the concrete mapping missing nvars. -/
theorem init_missing_field_fails_eagerly_witness :
    ((⟨none, some 1, none⟩ : Cparams).nvars = none ∨
      (⟨none, some 1, none⟩ : Cparams).nu = none) ∧
    heat1d_init ⟨none, some 1, none⟩ = Except.error PyErr.assertionError ∧
    heat1d_periodic_init ⟨none, some 1, none⟩ =
      Except.error PyErr.assertionError :=
  ⟨Or.inl rfl,
    (init_missing_field_fails_eagerly ⟨none, some 1, none⟩ (Or.inl rfl)).1,
    (init_missing_field_fails_eagerly ⟨none, some 1, none⟩ (Or.inl rfl)).2⟩

/-- C9: for heat1d and heat1d_periodic, solve_system never reads the initial
guess: two calls differing only in u0 return equal results. -/
theorem solve_system_independent_of_u0 (nvars : ℕ) (nu : ℚ)
    (rhs : Fin nvars → ℚ) (factor : ℚ) (u0 u0' : Fin nvars → ℚ) :
    heat1d_solve_system nvars nu rhs factor u0 =
      heat1d_solve_system nvars nu rhs factor u0' ∧
    heat1d_periodic_solve_system nvars nu rhs factor u0 =
      heat1d_periodic_solve_system nvars nu rhs factor u0' :=
  ⟨rfl, rfl⟩

/-- C2: heat1d.eval_f splits the right-hand side: the implicit part is A·u
where applying A realizes the second-order finite-difference Laplacian scaled
by nu/dx^2 (value nu/dx^2 · (u(i-1) - 2·u(i) + u(i+1)) with Dirichlet-0
boundaries), and the explicit part is the zero vector of length nvars. -/
theorem heat1d_eval_f_imex_split (nvars : ℕ) (nu : ℚ) (u : Fin nvars → ℚ)
    (t : ℚ) :
    (heat1d_eval_f nvars nu u t).impl = (heat1d_A nvars nu).mulVec u ∧
    (∀ i : Fin nvars,
      (heat1d_A nvars nu).mulVec u i =
        nu / heat1d_dx nvars ^ 2 *
          ((if _ : 1 ≤ (i : ℕ) then
              u ⟨(i : ℕ) - 1, lt_of_le_of_lt (Nat.sub_le _ _) i.isLt⟩ else 0)
            - 2 * u i
            + (if h : (i : ℕ) + 1 < nvars then u ⟨(i : ℕ) + 1, h⟩ else 0))) ∧
    (heat1d_eval_f nvars nu u t).expl = fun _ => 0 := by
  refine ⟨rfl, ?_, rfl⟩
  intro i
  have hmv : (heat1d_A nvars nu).mulVec u i =
      ∑ j : Fin nvars, (nu / heat1d_dx nvars ^ 2) * (fdStencil nvars i j * u j) := by
    simp only [Matrix.mulVec, Matrix.dotProduct, heat1d_A, heat1d_getA,
      Matrix.smul_apply, smul_eq_mul, mul_assoc]
  rw [hmv, ← Finset.mul_sum]
  congr 1
  have hterm : ∀ j : Fin nvars,
      fdStencil nvars i j * u j =
        (if (j : ℕ) = (i : ℕ) then -2 * u j else 0) +
        ((if (j : ℕ) = (i : ℕ) + 1 then u j else 0) +
         (if 1 ≤ (i : ℕ) ∧ (j : ℕ) = (i : ℕ) - 1 then u j else 0)) := by
    intro j
    have hij : (i = j) ↔ ((i : ℕ) = (j : ℕ)) := Fin.ext_iff
    simp only [fdStencil, Matrix.of_apply, hij]
    split_ifs <;> first | (exfalso; omega) | ring
  rw [Finset.sum_congr rfl fun j _ => hterm j]
  rw [Finset.sum_add_distrib, Finset.sum_add_distrib]
  rw [sum_ite_eq_dite (fun j => -2 * u j),
    sum_ite_eq_dite (fun j => u j)]
  have hsub : (∑ j : Fin nvars,
      if 1 ≤ (i : ℕ) ∧ (j : ℕ) = (i : ℕ) - 1 then u j else 0) =
      (if _ : 1 ≤ (i : ℕ) then
        u ⟨(i : ℕ) - 1, lt_of_le_of_lt (Nat.sub_le _ _) i.isLt⟩ else 0) := by
    by_cases hc : 1 ≤ (i : ℕ)
    · rw [dif_pos hc]
      rw [Finset.sum_congr rfl fun j _ => if_congr (and_iff_right hc) rfl rfl]
      rw [sum_ite_eq_dite (fun j => u j)]
      rw [dif_pos (lt_of_le_of_lt (Nat.sub_le _ _) i.isLt)]
    · rw [dif_neg hc]
      apply Finset.sum_eq_zero
      intro j _
      rw [if_neg]
      intro hcj
      exact hc hcj.1
  rw [hsub, dif_pos i.isLt]
  have hieta : (⟨(i : ℕ), i.isLt⟩ : Fin nvars) = i := rfl
  rw [hieta]
  ring

/-- C6: heat1d.u_exact(t) is the exponential-decay solution: the i-th value is
sin(pi·x_i)·exp(-pi^2·nu·t) with x_i = (i+1)·dx and dx = 1/(nvars+1), and for
nu > 0 its maximum norm at a later time t > 0 is strictly smaller than at
t = 0. -/
theorem heat1d_u_exact_decay (nvars : ℕ) (nu t : ℝ)
    (hnv : 0 < nvars) (hnu : 0 < nu) (ht : 0 < t) :
    (∀ i : Fin nvars,
        heat1d_u_exact nvars nu t i =
          Real.sin (Real.pi * (((i : ℕ) + 1 : ℝ) * (1 / ((nvars : ℝ) + 1)))) *
            Real.exp (-Real.pi ^ 2 * nu * t)) ∧
    supNorm (heat1d_u_exact nvars nu t) < supNorm (heat1d_u_exact nvars nu 0) := by
  refine ⟨fun i => rfl, ?_⟩
  have hcpos : 0 < Real.exp (-Real.pi ^ 2 * nu * t) := Real.exp_pos _
  have hclt : Real.exp (-Real.pi ^ 2 * nu * t) < 1 := by
    rw [Real.exp_lt_one_iff]
    have hpi2 : 0 < Real.pi ^ 2 * nu * t := by
      have := Real.pi_pos
      positivity
    linarith
  have hsin : ∀ i : Fin nvars,
      0 < Real.sin (Real.pi * heat1d_xvalues nvars i) := by
    intro i
    apply Real.sin_pos_of_pos_of_lt_pi
    · have hx : 0 < heat1d_xvalues nvars i := by
        unfold heat1d_xvalues
        positivity
      exact mul_pos Real.pi_pos hx
    · have hx1 : heat1d_xvalues nvars i < 1 := by
        unfold heat1d_xvalues
        rw [mul_one_div, div_lt_one (by positivity)]
        have hlt := i.isLt
        have : ((i : ℕ) : ℝ) < (nvars : ℝ) := by exact_mod_cast hlt
        linarith
      calc Real.pi * heat1d_xvalues nvars i
          < Real.pi * 1 := mul_lt_mul_of_pos_left hx1 Real.pi_pos
        _ = Real.pi := mul_one _
  have hu0 : ∀ i : Fin nvars, heat1d_u_exact nvars nu 0 i =
      Real.sin (Real.pi * heat1d_xvalues nvars i) := by
    intro i
    unfold heat1d_u_exact
    rw [mul_zero, Real.exp_zero, mul_one]
  have hB : 0 < supNorm (heat1d_u_exact nvars nu 0) := by
    have h1 : 0 < |heat1d_u_exact nvars nu 0 ⟨0, hnv⟩| := by
      rw [hu0, abs_of_pos (hsin ⟨0, hnv⟩)]
      exact hsin ⟨0, hnv⟩
    refine lt_of_lt_of_le h1 (le_foldr_max _ _ ?_)
    exact (List.mem_ofFn _ _).mpr ⟨⟨0, hnv⟩, rfl⟩
  show (List.ofFn fun i => |heat1d_u_exact nvars nu t i|).foldr max 0 <
    supNorm (heat1d_u_exact nvars nu 0)
  apply foldr_max_lt _ _ hB
  intro x hx
  obtain ⟨i, rfl⟩ := (List.mem_ofFn _ _).mp hx
  have habs : |heat1d_u_exact nvars nu t i| =
      Real.sin (Real.pi * heat1d_xvalues nvars i) *
        Real.exp (-Real.pi ^ 2 * nu * t) :=
    abs_of_pos (mul_pos (hsin i) hcpos)
  show |heat1d_u_exact nvars nu t i| < supNorm (heat1d_u_exact nvars nu 0)
  rw [habs]
  calc Real.sin (Real.pi * heat1d_xvalues nvars i) *
        Real.exp (-Real.pi ^ 2 * nu * t)
      < Real.sin (Real.pi * heat1d_xvalues nvars i) :=
        mul_lt_of_lt_one_right (hsin i) hclt
    _ = |heat1d_u_exact nvars nu 0 i| := by
        rw [hu0, abs_of_pos (hsin i)]
    _ ≤ supNorm (heat1d_u_exact nvars nu 0) :=
        le_foldr_max _ _ ((List.mem_ofFn _ _).mpr ⟨i, rfl⟩)

/-- Witness for C6 at nvars = 1, nu = 1, t = 1. -/
theorem heat1d_u_exact_decay_witness :
    0 < 1 ∧ (0 : ℝ) < 1 ∧ ((0 : ℝ) < 1 ∧
    supNorm (heat1d_u_exact 1 1 1) < supNorm (heat1d_u_exact 1 1 0)) :=
  ⟨Nat.one_pos, one_pos, one_pos,
    (heat1d_u_exact_decay 1 1 1 Nat.one_pos one_pos one_pos).2⟩

/-- C10: heat1d.force_term is inconsistent between scalar and array times: a
scalar t yields -sin(pi·x_i)·(sin t - nu·pi^2·cos t) over the grid, an array
of length n yields the all-zero vector of length nvars·n, and at nvars = 1,
nu = 1, array ([0]) the stacked scalar evaluation differs from the array
evaluation by pi^2 > 0. -/
theorem heat1d_force_term_scalar_array_mismatch :
    (∀ (nvars : ℕ) (nu t : ℝ) (i : Fin nvars),
        heat1d_force_term_scalar nvars nu t i =
          -Real.sin (Real.pi * (((i : ℕ) + 1 : ℝ) * (1 / ((nvars : ℝ) + 1)))) *
            (Real.sin t - nu * Real.pi ^ 2 * Real.cos t)) ∧
    (∀ (nvars n : ℕ) (ts : Fin n → ℝ) (k : Fin (nvars * n)),
        heat1d_force_term_array nvars n ts k = 0) ∧
    heat1d_force_term_stacked 1 1 1 (fun _ => 0) ⟨0, Nat.one_pos⟩ -
        heat1d_force_term_array 1 1 (fun _ => 0) ⟨0, Nat.one_pos⟩ =
      Real.pi ^ 2 ∧
    0 < Real.pi ^ 2 := by
  have hpi2 : 0 < Real.pi ^ 2 := by
    have := Real.pi_pos
    positivity
  refine ⟨fun nvars nu t i => rfl, fun nvars n ts k => rfl, ?_, hpi2⟩
  have hkey : ∀ i : Fin 1, heat1d_force_term_scalar 1 1 0 i = Real.pi ^ 2 := by
    intro i
    have hi0 : (i : ℕ) = 0 := by omega
    simp only [heat1d_force_term_scalar, heat1d_xvalues, hi0,
      Real.sin_zero, Real.cos_zero]
    have harg : Real.pi * (((0 : ℕ) + 1 : ℝ) * (1 / ((1 : ℕ) + 1 : ℝ))) =
        Real.pi / 2 := by
      push_cast
      ring
    rw [harg, Real.sin_pi_div_two]
    ring
  have hstack : heat1d_force_term_stacked 1 1 1 (fun _ => 0) ⟨0, Nat.one_pos⟩ =
      heat1d_force_term_scalar 1 1 0
        ⟨0 % 1, Nat.mod_lt _ (Nat.pos_of_ne_zero Nat.one_ne_zero)⟩ := by
    simp only [heat1d_force_term_stacked]
    rw [dif_neg Nat.one_ne_zero]
  rw [hstack, hkey]
  show Real.pi ^ 2 - 0 = Real.pi ^ 2
  ring

/-- C4: constructing a collocation node set with M < 1 (in particular M = 0),
with a zero-length or negative interval (a >= b), or with an unsupported
node-type/quadrature-type combination fails with ConfigurationError; no
Collocation object is constructed (the result is an error, not ok). -/
theorem collocation_make_validation (M : ℕ) (a b : ℚ) (nt : NodeType)
    (qt : QuadType)
    (h : M = 0 ∨ b ≤ a ∨ supportedCombo nt qt = false) :
    Collocation.make M a b nt qt = Except.error PyErr.configurationError := by
  unfold Collocation.make
  split_ifs with h1 h2 h3
  · rfl
  · rfl
  · rfl
  · exfalso
    rcases h with h | h | h
    · omega
    · exact h2 h
    · exact h3 h

/-- Witness for C4 at M = 0 on the unit interval with the supported
equidistant/Lobatto tags. -/
theorem collocation_make_validation_witness :
    ((0 : ℕ) = 0 ∨ (1 : ℚ) ≤ 0 ∨ supportedCombo .EQUID .LOBATTO = false) ∧
    Collocation.make 0 0 1 .EQUID .LOBATTO =
      Except.error PyErr.configurationError :=
  ⟨Or.inl rfl, collocation_make_validation 0 0 1 .EQUID .LOBATTO (Or.inl rfl)⟩

/-- C8: the controller run returns the pair (final_value, stats_log) when the
interval divides evenly into num_procs time-slices of length dt, fails with
ConfigurationError otherwise, and in the Newton-coupled mode a successful run
additionally exposes the outer Newton iteration count and the inner
linear-solve counter. -/
theorem controller_run_contract {V : Type} (num_procs : ℕ) (dt : ℚ)
    (advance : V → ℚ → V) (outer_iters inner_per_outer : ℕ) (u0 : V)
    (t0 Tend : ℚ) :
    (Tend - t0 = (num_procs : ℚ) * dt →
      controller_run num_procs dt advance u0 t0 Tend =
        Except.ok (controllerSlices advance dt num_procs 0 u0 t0) ∧
      newton_controller_run num_procs dt advance outer_iters inner_per_outer
          u0 t0 Tend =
        Except.ok (controllerSlices advance dt num_procs 0 u0 t0,
          ⟨outer_iters, outer_iters * inner_per_outer * num_procs⟩)) ∧
    (Tend - t0 ≠ (num_procs : ℚ) * dt →
      controller_run num_procs dt advance u0 t0 Tend =
        Except.error PyErr.configurationError ∧
      newton_controller_run num_procs dt advance outer_iters inner_per_outer
          u0 t0 Tend = Except.error PyErr.configurationError) := by
  constructor
  · intro hdiv
    unfold controller_run newton_controller_run
    rw [if_pos hdiv, if_pos hdiv]
    exact ⟨rfl, rfl⟩
  · intro hdiv
    unfold controller_run newton_controller_run
    rw [if_neg hdiv, if_neg hdiv]
    exact ⟨rfl, rfl⟩

/-- Witness for C8: two slices of length 1/2 divide [0, 1] evenly and the run
succeeds; they do not divide [0, 2] and that run fails with
ConfigurationError. -/
theorem controller_run_contract_witness :
    ((1 : ℚ) - 0 = (2 : ℚ) * (1 / 2)) ∧
    controller_run 2 (1 / 2) (fun u : ℚ => fun _ => u) 0 0 1 =
      Except.ok (controllerSlices (fun u : ℚ => fun _ => u) (1 / 2) 2 0 0 0) ∧
    (((2 : ℚ) - 0 = (2 : ℚ) * (1 / 2)) = False) ∧
    controller_run 2 (1 / 2) (fun u : ℚ => fun _ => u) 0 0 2 =
      Except.error PyErr.configurationError := by
  have h1 : (1 : ℚ) - 0 = (2 : ℚ) * (1 / 2) := by norm_num
  have h2 : ¬ ((2 : ℚ) - 0 = (2 : ℚ) * (1 / 2)) := by norm_num
  exact ⟨h1,
    ((controller_run_contract 2 (1 / 2) (fun u : ℚ => fun _ => u) 0 0
      (0 : ℚ) 0 1).1 h1).1,
    eq_false h2,
    ((controller_run_contract 2 (1 / 2) (fun u : ℚ => fun _ => u) 0 0
      (0 : ℚ) 0 2).2 h2).1⟩

/-- C3: for every node count M >= 1 and every injective node family (covering
all supported node types), the integration matrix Q reproduces exactly the
integral from the interval left edge a to each node of every polynomial of
degree at most M-1; and the Equidistant generator is the Collocation class
invoked with node_type EQUID and quad_type LOBATTO. -/
theorem collQ_exact_on_low_degree (M : ℕ) (hM : 1 ≤ M) (a : ℝ)
    (t : Fin M → ℝ) (ht : Function.Injective t) (p : Polynomial ℝ)
    (hdeg : p.degree < (M : ℕ)) :
    (∀ m : Fin M,
      ∑ j : Fin M, collQ M a t m j * p.eval (t j) =
        ∫ x in a..(t m), p.eval x) ∧
    ∀ (M₂ : ℕ) (a₂ b₂ : ℚ) (coll : Collocation),
      Equidistant.make M₂ a₂ b₂ = Except.ok coll →
      coll.node_type = NodeType.EQUID ∧ coll.quad_type = QuadType.LOBATTO := by
  constructor
  · intro m
    have hinj : Set.InjOn t ↑(Finset.univ : Finset (Fin M)) :=
      fun x _ y _ h => ht h
    have hdeg' : p.degree < (Finset.univ : Finset (Fin M)).card := by
      simpa [Finset.card_univ] using hdeg
    have hp := Lagrange.eq_interpolate hinj hdeg'
    have heval : ∀ x : ℝ,
        (Lagrange.interpolate Finset.univ t fun i => p.eval (t i)).eval x =
          p.eval x := by
      intro x
      conv_rhs => rw [hp]
    have hint : ∀ j : Fin M, IntervalIntegrable
        (fun x => p.eval (t j) * (Lagrange.basis Finset.univ t j).eval x)
        MeasureTheory.volume a (t m) :=
      fun j =>
        (continuous_const.mul
          (Lagrange.basis Finset.univ t j).continuous).intervalIntegrable _ _
    calc ∑ j : Fin M, collQ M a t m j * p.eval (t j)
        = ∑ j : Fin M,
            ∫ x in a..(t m),
              p.eval (t j) * (Lagrange.basis Finset.univ t j).eval x := by
          refine Finset.sum_congr rfl fun j _ => ?_
          rw [intervalIntegral.integral_const_mul]
          simp only [collQ, Matrix.of_apply]
          ring
      _ = ∫ x in a..(t m),
            ∑ j : Fin M,
              p.eval (t j) * (Lagrange.basis Finset.univ t j).eval x :=
          (intervalIntegral.integral_finset_sum fun j _ => hint j).symm
      _ = ∫ x in a..(t m),
            (Lagrange.interpolate Finset.univ t fun i => p.eval (t i)).eval x := by
          refine intervalIntegral.integral_congr fun x _ => ?_
          rw [Lagrange.interpolate_apply, Polynomial.eval_finset_sum]
          exact Finset.sum_congr rfl fun j _ => by
            rw [Polynomial.eval_mul, Polynomial.eval_C]
      _ = ∫ x in a..(t m), p.eval x :=
          intervalIntegral.integral_congr fun x _ => heval x
  · intro M₂ a₂ b₂ coll hcoll
    unfold Equidistant.make Collocation.make at hcoll
    split_ifs at hcoll
    all_goals
      first
        | exact Except.noConfusion hcoll
        | (injection hcoll with h
           subst h
           exact ⟨rfl, rfl⟩)

/-- Witness for C3: two nodes 0 and 1 with left edge 0 and the degree-one
polynomial X. -/
theorem collQ_exact_on_low_degree_witness :
    (1 ≤ 2) ∧ Function.Injective (fun i : Fin 2 => ((i : ℕ) : ℝ)) ∧
    (Polynomial.X : Polynomial ℝ).degree < ((2 : ℕ) : ℕ) ∧
    ((∀ m : Fin 2,
        ∑ j : Fin 2, collQ 2 0 (fun i : Fin 2 => ((i : ℕ) : ℝ)) m j *
            (Polynomial.X : Polynomial ℝ).eval
              ((fun i : Fin 2 => ((i : ℕ) : ℝ)) j) =
          ∫ x in (0 : ℝ)..((fun i : Fin 2 => ((i : ℕ) : ℝ)) m),
            (Polynomial.X : Polynomial ℝ).eval x) ∧
      ∀ (M₂ : ℕ) (a₂ b₂ : ℚ) (coll : Collocation),
        Equidistant.make M₂ a₂ b₂ = Except.ok coll →
        coll.node_type = NodeType.EQUID ∧
          coll.quad_type = QuadType.LOBATTO) := by
  have hM : 1 ≤ 2 := by norm_num
  have hinj : Function.Injective (fun i : Fin 2 => ((i : ℕ) : ℝ)) :=
    fun x y h => Fin.ext (Nat.cast_injective h)
  have hdeg : (Polynomial.X : Polynomial ℝ).degree < ((2 : ℕ) : ℕ) := by
    rw [Polynomial.degree_X]
    exact_mod_cast Nat.one_lt_two
  exact ⟨hM, hinj, hdeg,
    collQ_exact_on_low_degree 2 hM 0 (fun i : Fin 2 => ((i : ℕ) : ℝ)) hinj
      Polynomial.X hdeg⟩

end PySDC
